import Mathlib

/-!
A verification development for the symbol-resolution engine of the
fuzzy_ruby_server language server (`src/persistence.rs`).

The development shallowly embeds:

* the extractor `serialize` / `parse` (AST walk emitting `FuzzyNode` records
  while threading a mutable scope stack, here passed and returned explicitly);
* the index lifecycle `reindex_modified_file` (purge by `file_path_id`, then
  bulk insert; the tantivy index is modelled as a `List Record` and
  `delete_term` + `add_document` + `commit` as a filter followed by an append);
* the two resolver operations `find_definitions` and `find_highlights`,
  including the tantivy boolean-query shapes they build (`Occur.must` /
  `Occur.should` clauses over exact term queries) and the documented tantivy
  matching semantics (all MUST clauses are required; SHOULD clauses are only
  required when a query has no MUST clause; an empty boolean query matches
  nothing; a multi-valued field matches a term when any of its values does).

External components are embedded at their interface, never re-implemented:

* lib_ruby_parser: the parser itself is out of scope (spec section 2); `parse`
  takes the parser output `Option Node` directly (`none` models a parse
  failure, in which case the source returns with zero documents).  The `Node`
  type mirrors the fields of the lib_ruby_parser node structs that
  `serialize` reads; `NodeList` and `NodeOpt` mirror `Vec<Node>` and
  `Option<Box<Node>>`.  The roughly 45 remaining purely-recursive compound
  arms of the source match (And, Or, Array, Hash, ...) are structurally
  identical to the `argsN` / `beginN` / `ifN` arms embedded here, and the
  source's final `_ => {}` arm is the `other` constructor.
* `DecodedInput::line_col_for_pos` is modelled as a total function
  `input : Nat → Nat × Nat` from a byte offset to a `(line, column)` pair (the
  source unwraps the `Option` it returns; an offset-map miss is an
  implementation defect per spec section 7 and is not modelled).
* `blake3::hash` is an external hash; every definition that needs it takes it
  as an explicit function argument `blake3_hash : String → String` (the
  digest rendered to its string form, as the source does with `to_string`).
  No property of the hash is assumed anywhere.
* Rust's `str::replace(pat, "")` (used to compute the workspace-relative
  path) is embedded by `rustReplace`: a left-to-right, non-overlapping,
  single-pass removal of every occurrence of the pattern, written with a
  structural fuel argument (the fuel is the string length, which bounds the
  number of steps) so that it evaluates inside the kernel.
-/

/-- A byte-offset source span; mirrors lib_ruby_parser `Loc { begin, end }`
(`begin`/`end` are renamed because `end` is reserved in Lean). -/
structure Loc where
  beginPos : Nat
  endPos : Nat
  deriving DecidableEq

/-- One extracted symbol record before indexing; mirrors
`struct FuzzyNode` of `src/persistence.rs` (the `category` and `node_type`
string fields are `&'static str` in the source). -/
structure FuzzyNode where
  category : String
  fuzzy_ruby_scope : List String
  name : String
  node_type : String
  line : Nat
  start_column : Nat
  end_column : Nat
  deriving DecidableEq

mutual

/-- The lib_ruby_parser AST, restricted to the constructors (and within
them, the fields) that `serialize` in `src/persistence.rs` reads.  Every
structural pattern of the source match is represented: leaf emitters using
`expression_l` (`lvar`, ...), emitters using `name_l` with a child
(`lvasgn`, ...), the scope-pushing constructs (`classN`, `moduleN`, `defN`,
`defsN`), conditional emitters (`sendN`, `csend`, `superN`, `zsuper`,
`aliasN`), pure recursers (`argsN`, `beginN`, `ifN`), and the catch-all
`other` for the source's `_ => {}` arm. -/
inductive Node where
  | aliasN (toN fromN : Node)
  | arg (name : String) (expression_l : Loc)
  | argsN (args : NodeList)
  | beginN (statements : NodeList)
  | casgn (scope : NodeOpt) (name : String) (value : NodeOpt) (name_l : Loc)
  | classN (name : Node) (superclass : NodeOpt) (body : NodeOpt)
  | constN (scope : NodeOpt) (name : String) (name_l : Loc) (expression_l : Loc)
  | csend (recv : Node) (method_name : String) (args : NodeList) (selector_l : Option Loc)
  | cvar (name : String) (expression_l : Loc)
  | cvasgn (name : String) (value : NodeOpt) (name_l : Loc)
  | defN (name : String) (args : NodeOpt) (body : NodeOpt) (name_l : Loc)
  | defsN (name : String) (args : NodeOpt) (body : NodeOpt) (name_l : Loc)
  | gvar (name : String) (expression_l : Loc)
  | gvasgn (name : String) (value : NodeOpt) (name_l : Loc)
  | ifN (cond : Node) (if_true : NodeOpt) (if_false : NodeOpt)
  | ivar (name : String) (expression_l : Loc)
  | ivasgn (name : String) (value : NodeOpt) (name_l : Loc)
  | kwarg (name : String) (name_l : Loc)
  | lvar (name : String) (expression_l : Loc)
  | lvasgn (name : String) (value : NodeOpt) (name_l : Loc)
  | moduleN (name : Node) (body : NodeOpt)
  | sendN (recv : NodeOpt) (method_name : String) (args : NodeList) (selector_l : Option Loc)
  | superN (args : NodeList) (keyword_l : Loc)
  | sym (name : String) (expression_l : Loc)
  | zsuper (expression_l : Loc)
  | other

/-- Mirrors `Vec<Node>` children. -/
inductive NodeList where
  | nil
  | cons (head : Node) (tail : NodeList)

/-- Mirrors `Option<Box<Node>>` children. -/
inductive NodeOpt where
  | none
  | some (val : Node)

end

mutual

/-- The extractor: embeds `fn serialize` of `src/persistence.rs`.  The Rust
function appends to `documents: &mut Vec<FuzzyNode>` and mutates
`fuzzy_scope: &mut Vec<String>` in place; here the emitted documents are the
first component of the result and the final state of the scope stack is the
second.  Each arm mirrors the corresponding source arm, in the source's
order of emissions and child visits, cloning the scope stack as it stands at
the emission point. -/
def serializeNode (input : Nat → Nat × Nat) : Node → List String → List FuzzyNode × List String
  | Node.aliasN toN fromN, fuzzy_scope =>
    let d1 : List FuzzyNode :=
      match toN with
      | Node.sym name expression_l =>
        [⟨"assignment", fuzzy_scope, name, "Alias",
          (input expression_l.beginPos).1, (input expression_l.beginPos).2,
          (input expression_l.endPos).2⟩]
      | _ => []
    let d2 : List FuzzyNode :=
      match fromN with
      | Node.sym name expression_l =>
        [⟨"usage", fuzzy_scope, name, "Alias",
          (input expression_l.beginPos).1, (input expression_l.beginPos).2,
          (input expression_l.endPos).2⟩]
      | _ => []
    (d1 ++ d2, fuzzy_scope)
  | Node.arg name expression_l, fuzzy_scope =>
    ([⟨"assignment", fuzzy_scope, name, "Arg",
       (input expression_l.beginPos).1, (input expression_l.beginPos).2,
       (input expression_l.endPos).2⟩], fuzzy_scope)
  | Node.argsN args, fuzzy_scope => serializeNodeList input args fuzzy_scope
  | Node.beginN statements, fuzzy_scope => serializeNodeList input statements fuzzy_scope
  | Node.casgn scope name value name_l, fuzzy_scope =>
    let d0 : List FuzzyNode :=
      [⟨"assignment", fuzzy_scope, name, "Casgn",
        (input name_l.beginPos).1, (input name_l.beginPos).2, (input name_l.endPos).2⟩]
    let r1 := serializeNodeOpt input scope fuzzy_scope
    let r2 := serializeNodeOpt input value r1.2
    (d0 ++ r1.1 ++ r2.1, r2.2)
  | Node.classN name superclass body, fuzzy_scope =>
    match name with
    | Node.constN _cscope cname _name_l expression_l =>
      let d0 : List FuzzyNode :=
        [⟨"assignment", fuzzy_scope, cname, "Class",
          (input expression_l.beginPos).1, (input expression_l.beginPos).2,
          (input expression_l.endPos).2⟩]
      let s1 := fuzzy_scope ++ [cname]
      let r1 := serializeNodeOpt input superclass s1
      let r2 := serializeNodeOpt input body r1.2
      (d0 ++ r1.1 ++ r2.1, r2.2.dropLast)
    | _ => ([], fuzzy_scope)
  | Node.constN scope name name_l _expression_l, fuzzy_scope =>
    let d0 : List FuzzyNode :=
      [⟨"usage", fuzzy_scope, name, "Const",
        (input name_l.beginPos).1, (input name_l.beginPos).2, (input name_l.endPos).2⟩]
    let r1 := serializeNodeOpt input scope fuzzy_scope
    (d0 ++ r1.1, r1.2)
  | Node.csend recv method_name args selector_l, fuzzy_scope =>
    let d0 : List FuzzyNode :=
      match selector_l with
      | some loc =>
        [⟨"usage", fuzzy_scope, method_name, "CSend",
          (input loc.beginPos).1, (input loc.beginPos).2, (input loc.endPos).2⟩]
      | none => []
    let r1 := serializeNode input recv fuzzy_scope
    let r2 := serializeNodeList input args r1.2
    (d0 ++ r1.1 ++ r2.1, r2.2)
  | Node.cvar name expression_l, fuzzy_scope =>
    ([⟨"usage", fuzzy_scope, name, "Cvar",
       (input expression_l.beginPos).1, (input expression_l.beginPos).2,
       (input expression_l.endPos).2⟩], fuzzy_scope)
  | Node.cvasgn name value name_l, fuzzy_scope =>
    let d0 : List FuzzyNode :=
      [⟨"assignment", fuzzy_scope, name, "Cvasgn",
        (input name_l.beginPos).1, (input name_l.beginPos).2, (input name_l.endPos).2⟩]
    let r1 := serializeNodeOpt input value fuzzy_scope
    (d0 ++ r1.1, r1.2)
  | Node.defN name args body name_l, fuzzy_scope =>
    let d0 : List FuzzyNode :=
      [⟨"assignment", fuzzy_scope, name, "Def",
        (input name_l.beginPos).1, (input name_l.beginPos).2, (input name_l.endPos).2⟩]
    let s1 := fuzzy_scope ++ [name]
    let r1 := serializeNodeOpt input args s1
    let r2 := serializeNodeOpt input body r1.2
    (d0 ++ r1.1 ++ r2.1, r2.2.dropLast)
  | Node.defsN name args body name_l, fuzzy_scope =>
    let d0 : List FuzzyNode :=
      [⟨"assignment", fuzzy_scope, name, "Defs",
        (input name_l.beginPos).1, (input name_l.beginPos).2, (input name_l.endPos).2⟩]
    let scope_name := "self." ++ name
    let s1 := fuzzy_scope ++ [scope_name]
    let r1 := serializeNodeOpt input args s1
    let r2 := serializeNodeOpt input body r1.2
    (d0 ++ r1.1 ++ r2.1, r2.2.dropLast)
  | Node.gvar name expression_l, fuzzy_scope =>
    ([⟨"usage", fuzzy_scope, name, "Gvar",
       (input expression_l.beginPos).1, (input expression_l.beginPos).2,
       (input expression_l.endPos).2⟩], fuzzy_scope)
  | Node.gvasgn name value name_l, fuzzy_scope =>
    let d0 : List FuzzyNode :=
      [⟨"assignment", fuzzy_scope, name, "Gvasgn",
        (input name_l.beginPos).1, (input name_l.beginPos).2, (input name_l.endPos).2⟩]
    let r1 := serializeNodeOpt input value fuzzy_scope
    (d0 ++ r1.1, r1.2)
  | Node.ifN cond if_true if_false, fuzzy_scope =>
    let r1 := serializeNode input cond fuzzy_scope
    let r2 := serializeNodeOpt input if_true r1.2
    let r3 := serializeNodeOpt input if_false r2.2
    (r1.1 ++ r2.1 ++ r3.1, r3.2)
  | Node.ivar name expression_l, fuzzy_scope =>
    ([⟨"usage", fuzzy_scope, name, "Ivar",
       (input expression_l.beginPos).1, (input expression_l.beginPos).2,
       (input expression_l.endPos).2⟩], fuzzy_scope)
  | Node.ivasgn name value name_l, fuzzy_scope =>
    let d0 : List FuzzyNode :=
      [⟨"assignment", fuzzy_scope, name, "Ivasgn",
        (input name_l.beginPos).1, (input name_l.beginPos).2, (input name_l.endPos).2⟩]
    let r1 := serializeNodeOpt input value fuzzy_scope
    (d0 ++ r1.1, r1.2)
  | Node.kwarg name name_l, fuzzy_scope =>
    ([⟨"assignment", fuzzy_scope, name, "Kwarg",
       (input name_l.beginPos).1, (input name_l.beginPos).2, (input name_l.endPos).2⟩],
     fuzzy_scope)
  | Node.lvar name expression_l, fuzzy_scope =>
    ([⟨"usage", fuzzy_scope, name, "Lvar",
       (input expression_l.beginPos).1, (input expression_l.beginPos).2,
       (input expression_l.endPos).2⟩], fuzzy_scope)
  | Node.lvasgn name value name_l, fuzzy_scope =>
    let d0 : List FuzzyNode :=
      [⟨"assignment", fuzzy_scope, name, "Lvasgn",
        (input name_l.beginPos).1, (input name_l.beginPos).2, (input name_l.endPos).2⟩]
    let r1 := serializeNodeOpt input value fuzzy_scope
    (d0 ++ r1.1, r1.2)
  | Node.moduleN name body, fuzzy_scope =>
    match name with
    | Node.constN _cscope cname _name_l expression_l =>
      let d0 : List FuzzyNode :=
        [⟨"assignment", fuzzy_scope, cname, "Module",
          (input expression_l.beginPos).1, (input expression_l.beginPos).2,
          (input expression_l.endPos).2⟩]
      let s1 := fuzzy_scope ++ [cname]
      let r1 := serializeNodeOpt input body s1
      (d0 ++ r1.1, r1.2.dropLast)
    | _ => ([], fuzzy_scope)
  | Node.sendN recv method_name args selector_l, fuzzy_scope =>
    let r1 := serializeNodeOpt input recv fuzzy_scope
    let d0 : List FuzzyNode :=
      match selector_l with
      | some loc =>
        [⟨"usage", r1.2, method_name, "Send",
          (input loc.beginPos).1, (input loc.beginPos).2, (input loc.endPos).2⟩]
      | none => []
    let r2 := serializeNodeList input args r1.2
    (r1.1 ++ d0 ++ r2.1, r2.2)
  | Node.superN args keyword_l, fuzzy_scope =>
    let d0 : List FuzzyNode :=
      match fuzzy_scope.getLast? with
      | some last_scope_name =>
        [⟨"usage", fuzzy_scope, last_scope_name, "Super",
          (input keyword_l.beginPos).1, (input keyword_l.beginPos).2,
          (input keyword_l.endPos).2⟩]
      | none => []
    let r1 := serializeNodeList input args fuzzy_scope
    (d0 ++ r1.1, r1.2)
  | Node.sym _name _expression_l, fuzzy_scope => ([], fuzzy_scope)
  | Node.zsuper expression_l, fuzzy_scope =>
    let d0 : List FuzzyNode :=
      match fuzzy_scope.getLast? with
      | some last_scope_name =>
        [⟨"usage", fuzzy_scope, last_scope_name, "ZSuper",
          (input expression_l.beginPos).1, (input expression_l.beginPos).2,
          (input expression_l.endPos).2⟩]
      | none => []
    (d0, fuzzy_scope)
  | Node.other, fuzzy_scope => ([], fuzzy_scope)

/-- Sequential traversal of `Vec<Node>` children (`for child in ... { serialize }`). -/
def serializeNodeList (input : Nat → Nat × Nat) :
    NodeList → List String → List FuzzyNode × List String
  | NodeList.nil, fuzzy_scope => ([], fuzzy_scope)
  | NodeList.cons n ns, fuzzy_scope =>
    let r1 := serializeNode input n fuzzy_scope
    let r2 := serializeNodeList input ns r1.2
    (r1.1 ++ r2.1, r2.2)

/-- Traversal of an `Option<Box<Node>>` child (`if let Some(c) = ... { serialize }`). -/
def serializeNodeOpt (input : Nat → Nat × Nat) :
    NodeOpt → List String → List FuzzyNode × List String
  | NodeOpt.none, fuzzy_scope => ([], fuzzy_scope)
  | NodeOpt.some n, fuzzy_scope => serializeNode input n fuzzy_scope

end

/-- Embeds `fn parse` of `src/persistence.rs`.  The lib_ruby_parser run
itself is external (spec section 2); its output `parser_result.ast` is the
`ast` argument.  `none` is a parse failure: the source returns with the
`documents` vector untouched, i.e. empty.  Otherwise the AST is serialized
with a freshly created empty scope stack. -/
def parse (input : Nat → Nat × Nat) (ast : Option Node) : List FuzzyNode :=
  match ast with
  | none => []
  | some a => (serializeNode input a []).1

/-- A quick evaluation sanity check of the extractor on
`class C; def m; y = 2; end; end` shaped input. -/
example :
    (serializeNode (fun p => (p, p))
      (Node.classN (Node.constN NodeOpt.none "C" ⟨6, 7⟩ ⟨6, 7⟩) NodeOpt.none
        (NodeOpt.some (Node.defN "m" NodeOpt.none
          (NodeOpt.some (Node.lvasgn "y" NodeOpt.none ⟨20, 21⟩)) ⟨14, 15⟩)))
      []).1 =
    [⟨"assignment", [], "C", "Class", 6, 6, 7⟩,
     ⟨"assignment", ["C"], "m", "Def", 14, 14, 15⟩,
     ⟨"assignment", ["C", "m"], "y", "Lvasgn", 20, 20, 21⟩] := by decide

/-- One step-bounded pass of Rust `str::replace(pat, "")` over a character
list: scan left to right; at each position, if the (non-empty) pattern
matches, drop it and resume after the match, otherwise keep one character.
The `fuel` argument only makes the recursion structural; with
`fuel = s.length` (as `rustReplace` passes it) it is never exhausted, since
every step consumes at least one character. -/
def replaceAux (pat : List Char) : Nat → List Char → List Char
  | _, [] => []
  | 0, s => s
  | fuel + 1, c :: rest =>
    if !pat.isEmpty && pat.isPrefixOf (c :: rest) then
      replaceAux pat fuel ((c :: rest).drop pat.length)
    else
      c :: replaceAux pat fuel rest

/-- Embeds Rust `s.replace(pat, "")`: removes every left-to-right
non-overlapping occurrence of `pat` from `s` in a single pass (for an empty
pattern, `str::replace` with an empty replacement returns `s` unchanged,
as does this definition). -/
def rustReplace (s pat : String) : String :=
  String.mk (replaceAux pat.data s.data.length s.data)

/-- Decides whether `pat` occurs as a contiguous substring of `s`. -/
def hasOcc (pat : List Char) : List Char → Bool
  | [] => pat.isEmpty
  | c :: rest => pat.isPrefixOf (c :: rest) || hasOcc pat rest

/-- Modelled from the spec: the claim's reading of the workspace-relative
path, in which only the leading occurrence of the workspace root's path is
stripped from the document path (and nothing happens when it is not a
leading prefix).  Stated next to `rustReplace` for refinement comparison;
the source itself uses `str::replace`. -/
def stripLeading (docPath workspace_path : String) : String :=
  if workspace_path.data.isPrefixOf docPath.data then
    String.mk (docPath.data.drop workspace_path.data.length)
  else docPath

/-- Embeds `static USAGE_TYPE_RESTRICTIONS: phf::Map<&str, &[&str]>` of
`src/persistence.rs`; `none` is a key absent from the map. -/
def USAGE_TYPE_RESTRICTIONS : String → Option (List String)
  | "Alias" => some ["Alias", "Def", "Defs"]
  | "Const" => some ["Casgn", "Class", "Module"]
  | "CSend" => some ["Alias", "Def", "Defs"]
  | "Cvar" => some ["Cvasgn"]
  | "Gvar" => some ["Gvasgn"]
  | "Ivar" => some ["Ivasgn"]
  | "Lvar" => some ["Arg", "Kwarg", "Kwoptarg", "Kwrestarg", "Lvasgn", "MatchVar",
                    "Optarg", "Restarg", "Shadowarg"]
  | "Send" => some ["Alias", "Def", "Defs"]
  | "Super" => some ["Alias", "Def", "Defs"]
  | "ZSuper" => some ["Alias", "Def", "Defs"]
  | _ => none

/-- Embeds `static ASSIGNMENT_TYPE_RESTRICTIONS: phf::Map<&str, &[&str]>` of
`src/persistence.rs`. -/
def ASSIGNMENT_TYPE_RESTRICTIONS : String → Option (List String)
  | "Alias" => some ["Alias", "CSend", "Send", "Super", "ZSuper"]
  | "Arg" => some ["Lvar"]
  | "Casgn" => some ["Const"]
  | "Class" => some ["Const"]
  | "Cvasgn" => some ["Cvar"]
  | "Def" => some ["Alias", "CSend", "Send", "Super", "ZSuper"]
  | "Defs" => some ["Alias", "CSend", "Send", "Super", "ZSuper"]
  | "Gvasgn" => some ["Gvar"]
  | "Ivasgn" => some ["Ivar"]
  | "Kwarg" => some ["Lvar"]
  | "Kwoptarg" => some ["Lvar"]
  | "Kwrestarg" => some ["Lvar"]
  | "Lvasgn" => some ["Lvar"]
  | "MatchVar" => some ["Lvar"]
  | "Module" => some ["Const"]
  | "Optarg" => some ["Lvar"]
  | "Restarg" => some ["Lvar"]
  | "Shadowarg" => some ["Lvar"]
  | _ => none

/-- One indexed tantivy document, with the fields of the schema built in
`Persistence::new`: the multi-valued fields (`file_path`,
`fuzzy_ruby_scope`, `columns`) are lists, the rest single-valued, exactly as
`reindex_modified_file` populates them. -/
structure Record where
  file_path_id : String
  file_path : List String
  category : String
  fuzzy_ruby_scope : List String
  name : String
  node_type : String
  line : Nat
  start_column : Nat
  end_column : Nat
  columns : List Nat
  deriving DecidableEq

/-- The tantivy occurrence modes used by the source (`Occur::Must` and
`Occur::Should`; `MustNot` is never built). -/
inductive Occur where
  | must
  | should
  deriving DecidableEq

/-- The schema fields a term query can target. -/
inductive FieldId where
  | file_path_id
  | file_path
  | category
  | fuzzy_ruby_scope
  | name
  | node_type
  | line
  | start_column
  | end_column
  | columns
  deriving DecidableEq

/-- An exact term: text for the raw-tokenized text fields, numeric for the
u64 fields. -/
inductive TermValue where
  | str (s : String)
  | num (n : Nat)
  deriving DecidableEq

/-- A tantivy `TermQuery` (field plus exact term). -/
structure TermQ where
  field : FieldId
  value : TermValue
  deriving DecidableEq

/-- One clause of a `BooleanQuery` as the source builds them: either a
plain term query, or a nested `BooleanQuery` whose clauses are all
`Occur::Should` term queries (the shape built for the node-type
restriction unions). -/
inductive Clause where
  | term (t : TermQ)
  | boolShould (ts : List TermQ)
  deriving DecidableEq

/-- Exact-term matching per field, with the tantivy semantics for the raw
tokenizer: single-valued fields compare for equality; multi-valued fields
match when any stored value equals the term. -/
def recordHasTerm (r : Record) (t : TermQ) : Bool :=
  match t.field, t.value with
  | FieldId.file_path_id, TermValue.str s => r.file_path_id = s
  | FieldId.file_path, TermValue.str s => r.file_path.contains s
  | FieldId.category, TermValue.str s => r.category = s
  | FieldId.fuzzy_ruby_scope, TermValue.str s => r.fuzzy_ruby_scope.contains s
  | FieldId.name, TermValue.str s => r.name = s
  | FieldId.node_type, TermValue.str s => r.node_type = s
  | FieldId.line, TermValue.num n => r.line = n
  | FieldId.start_column, TermValue.num n => r.start_column = n
  | FieldId.end_column, TermValue.num n => r.end_column = n
  | FieldId.columns, TermValue.num n => r.columns.contains n
  | _, _ => false

/-- Whether a record matches one clause.  A nested all-`Should`
`BooleanQuery` requires at least one of its clauses to match (and an empty
one therefore matches nothing). -/
def clauseMatch (r : Record) : Clause → Bool
  | Clause.term t => recordHasTerm r t
  | Clause.boolShould ts => ts.any (recordHasTerm r)

/-- Whether a query clause carries `Occur::Must`. -/
def isMust : Occur × Clause → Bool
  | (Occur.must, _) => true
  | (Occur.should, _) => false

/-- Documented matching semantics of a tantivy `BooleanQuery`: when the
query has at least one MUST clause, a document matches when it satisfies
every MUST clause (SHOULD clauses then only contribute to scoring); when
all clauses are SHOULD, at least one must be satisfied. -/
def boolQueryMatch (r : Record) (q : List (Occur × Clause)) : Bool :=
  if q.any isMust then
    q.all (fun c => !isMust c || clauseMatch r c.2)
  else
    q.any (fun c => clauseMatch r c.2)

/-- `searcher.search(&query, &TopDocs::with_limit(top_k))`: up to `top_k`
of the matching records.  The index is modelled as the list of committed
documents; tantivy's BM25 ordering is abstracted as the index order, which
is sound for every claim proved here (each is universally quantified over
the returned subset). -/
def searchQ (index : List Record) (q : List (Occur × Clause)) (top_k : Nat) : List Record :=
  (index.filter (fun r => boolQueryMatch r q)).take top_k

/-- An LSP position (`Position::new(line, character)`). -/
structure Position where
  line : Nat
  character : Nat
  deriving DecidableEq

/-- An LSP range; `start`/`end` of the source are `start`/`endP` (`end` is
reserved in Lean). -/
structure Range where
  start : Position
  endP : Position
  deriving DecidableEq

/-- An LSP location.  `Url::from_file_path(path)` is abstracted as the
path string it is built from. -/
structure Location where
  uri : String
  range : Range
  deriving DecidableEq

/-- The two LSP `DocumentHighlightKind`s the source produces. -/
inductive DocumentHighlightKind where
  | write
  | read
  deriving DecidableEq

/-- An LSP `DocumentHighlight` (the source always wraps the kind in
`Some`). -/
structure DocumentHighlight where
  range : Range
  kind : Option DocumentHighlightKind
  deriving DecidableEq

/-- The per-document loop body of `reindex_modified_file`: builds the
tantivy document for one extracted `FuzzyNode`.  `file_path` is the
relative path split on `/` keeping only the non-empty parts; `columns` is
the loop `for col in start_col..(end_col + 1)`, i.e. the half-open Rust
range `[start, end + 1)` enumerated in order. -/
def mkDocument (file_path_id : String) (relative_path : String) (document : FuzzyNode) :
    Record :=
  ⟨file_path_id,
   (relative_path.splitOn "/").filter (fun path_part => path_part.length > 0),
   document.category,
   document.fuzzy_ruby_scope,
   document.name,
   document.node_type,
   document.line,
   document.start_column,
   document.end_column,
   List.range' document.start_column (document.end_column + 1 - document.start_column)⟩

/-- Embeds `Persistence::reindex_modified_file`.  The text document is
given by its uri path `docPath` and its parser output `ast` (see `parse`);
`workspace_path` is the state set by `set_workspace_path`.  The tantivy
writer's `delete_term(file_path_id)` followed by `add_document` for every
extracted record and one `commit` is, observably for all later searches,
the removal of every committed record carrying this `file_path_id`
followed by the append of the new documents. -/
def reindex_modified_file (blake3_hash : String → String) (workspace_path : String)
    (index : List Record) (docPath : String) (ast : Option Node)
    (input : Nat → Nat × Nat) : List Record :=
  let documents := parse input ast
  let relative_path := rustReplace docPath workspace_path
  let file_path_id := blake3_hash relative_path
  index.filter (fun r => r.file_path_id ≠ file_path_id)
    ++ documents.map (mkDocument file_path_id relative_path)

/-- The file-identity computation as `reindex_modified_file` performs it
(lines 197-198 of the source): digest of the uri path with the workspace
path replaced away. -/
def reindexFileId (blake3_hash : String → String) (workspace_path docPath : String) : String :=
  blake3_hash (rustReplace docPath workspace_path)

/-- The file-identity computation as `find_definitions` performs it
(lines 261-284 of the source). -/
def findDefinitionsFileId (blake3_hash : String → String)
    (workspace_path docPath : String) : String :=
  blake3_hash (rustReplace docPath workspace_path)

/-- The file-identity computation as `find_highlights` performs it
(lines 471-493 of the source). -/
def findHighlightsFileId (blake3_hash : String → String)
    (workspace_path docPath : String) : String :=
  blake3_hash (rustReplace docPath workspace_path)

/-- The locate query of `find_definitions`: MUST `file_path_id`, MUST
`category = "usage"`, MUST `line`, MUST `columns` (the clause order of the
source's `BooleanQuery::new`). -/
def definitionLocateQuery (file_path_id : String) (line col : Nat) :
    List (Occur × Clause) :=
  [(Occur.must, Clause.term ⟨FieldId.file_path_id, TermValue.str file_path_id⟩),
   (Occur.must, Clause.term ⟨FieldId.category, TermValue.str "usage"⟩),
   (Occur.must, Clause.term ⟨FieldId.line, TermValue.num line⟩),
   (Occur.must, Clause.term ⟨FieldId.columns, TermValue.num col⟩)]

/-- The locate step of `find_definitions`: top-1 search with the locate
query, `none` when no document matches (the source then returns the empty
list of locations). -/
def locateUsage (blake3_hash : String → String) (workspace_path : String)
    (index : List Record) (docPath : String) (line col : Nat) : Option Record :=
  (searchQ index
    (definitionLocateQuery (findDefinitionsFileId blake3_hash workspace_path docPath) line col)
    1).head?

/-- The candidate query of `find_definitions`, built from the located usage
record `u` and the allowed assignment types: MUST `category = "assignment"`,
MUST `name`, MUST a nested all-SHOULD union of the allowed node types, then
one scope clause per scope name of the located record — MUST each when the
located `node_type` is `"Lvar"` (the only explicit arm of the source
match), SHOULD each otherwise. -/
def definitionCandidateQuery (u : Record) (allowed : List String) :
    List (Occur × Clause) :=
  [(Occur.must, Clause.term ⟨FieldId.category, TermValue.str "assignment"⟩),
   (Occur.must, Clause.term ⟨FieldId.name, TermValue.str u.name⟩),
   (Occur.must, Clause.boolShould
     (allowed.map (fun t => ⟨FieldId.node_type, TermValue.str t⟩)))]
  ++ u.fuzzy_ruby_scope.map (fun scope_name =>
      (if u.node_type = "Lvar" then Occur.must else Occur.should,
       Clause.term ⟨FieldId.fuzzy_ruby_scope, TermValue.str scope_name⟩))

/-- The response construction shared by the hit loop of `find_definitions`:
uri from the workspace path joined with the stored path parts, range from
the stored line and columns (both positions on the stored line). -/
def mkLocation (workspace_path : String) (r : Record) : Location :=
  ⟨workspace_path ++ "/" ++ String.intercalate "/" r.file_path,
   ⟨⟨r.line, r.start_column⟩, ⟨r.line, r.end_column⟩⟩⟩

/-- Embeds `Persistence::find_definitions`.  The
`USAGE_TYPE_RESTRICTIONS.get(usage_type).unwrap()` of the source panics
when the located record's `node_type` is not a key of the map; the panic is
modelled as `Except.error`.  Otherwise: candidate search with
`top_k = 50`, each hit turned into a `Location`. -/
def find_definitions (blake3_hash : String → String) (workspace_path : String)
    (index : List Record) (docPath : String) (line col : Nat) :
    Except String (List Location) :=
  match locateUsage blake3_hash workspace_path index docPath line col with
  | none => Except.ok []
  | some u =>
    match USAGE_TYPE_RESTRICTIONS u.node_type with
    | none => Except.error "called Option.unwrap on a None value"
    | some allowed =>
      Except.ok ((searchQ index (definitionCandidateQuery u allowed) 50).map
        (mkLocation workspace_path))

/-- The locate query of `find_highlights`: as `definitionLocateQuery` but
with no category clause (either side of a definition/reference is an
acceptable hit). -/
def highlightLocateQuery (file_path_id : String) (line col : Nat) :
    List (Occur × Clause) :=
  [(Occur.must, Clause.term ⟨FieldId.file_path_id, TermValue.str file_path_id⟩),
   (Occur.must, Clause.term ⟨FieldId.line, TermValue.num line⟩),
   (Occur.must, Clause.term ⟨FieldId.columns, TermValue.num col⟩)]

/-- The locate step of `find_highlights`. -/
def locateToken (blake3_hash : String → String) (workspace_path : String)
    (index : List Record) (docPath : String) (line col : Nat) : Option Record :=
  (searchQ index
    (highlightLocateQuery (findHighlightsFileId blake3_hash workspace_path docPath) line col)
    1).head?

/-- The candidate query of `find_highlights`: MUST the same `file_path_id`,
MUST `name`, MUST a nested all-SHOULD union over the usage-table entries
for the located type (`unwrap_or` empty), then the assignment-table entries
(`unwrap_or` empty), then the located type itself; then the same
Lvar-MUST / otherwise-SHOULD scope clauses as `definitionCandidateQuery`. -/
def highlightCandidateQuery (file_path_id : String) (u : Record) :
    List (Occur × Clause) :=
  let usage_entries := (USAGE_TYPE_RESTRICTIONS u.node_type).getD []
  let assignment_entries := (ASSIGNMENT_TYPE_RESTRICTIONS u.node_type).getD []
  [(Occur.must, Clause.term ⟨FieldId.file_path_id, TermValue.str file_path_id⟩),
   (Occur.must, Clause.term ⟨FieldId.name, TermValue.str u.name⟩),
   (Occur.must, Clause.boolShould
     ((usage_entries ++ assignment_entries ++ [u.node_type]).map
       (fun t => ⟨FieldId.node_type, TermValue.str t⟩)))]
  ++ u.fuzzy_ruby_scope.map (fun scope_name =>
      (if u.node_type = "Lvar" then Occur.must else Occur.should,
       Clause.term ⟨FieldId.fuzzy_ruby_scope, TermValue.str scope_name⟩))

/-- The per-hit construction of `find_highlights`: the stored single-line
range, tagged WRITE for category `"assignment"` and READ otherwise. -/
def mkDocumentHighlight (r : Record) : DocumentHighlight :=
  ⟨⟨⟨r.line, r.start_column⟩, ⟨r.line, r.end_column⟩⟩,
   if r.category = "assignment" then some DocumentHighlightKind.write
   else some DocumentHighlightKind.read⟩

/-- Embeds `Persistence::find_highlights`: locate without a category
filter, candidate search with `top_k = 100`, each hit tagged READ/WRITE. -/
def find_highlights (blake3_hash : String → String) (workspace_path : String)
    (index : List Record) (docPath : String) (line col : Nat) :
    List DocumentHighlight :=
  match locateToken blake3_hash workspace_path index docPath line col with
  | none => []
  | some u =>
    (searchQ index
      (highlightCandidateQuery (findHighlightsFileId blake3_hash workspace_path docPath) u)
      100).map mkDocumentHighlight

/-- Evaluation sanity check: Rust replace removes every occurrence, not
only the leading one. -/
example : rustReplace "/a/b/a/c.rb" "/a" = "/b/c.rb" := by decide

/-- Evaluation sanity check of the end-to-end pipeline on spec scenario 1:
file `a` containing `x = 1; puts x`. -/
example :
    (reindex_modified_file (fun s => s) "/w" [] "/w/a"
      (some (Node.beginN (NodeList.cons (Node.lvasgn "x" NodeOpt.none ⟨0, 1⟩)
        (NodeList.cons (Node.sendN NodeOpt.none "puts" (NodeList.cons (Node.lvar "x" ⟨11, 12⟩)
          NodeList.nil) (some ⟨6, 10⟩)) NodeList.nil))))
      (fun p => if p < 6 then (0, p) else (1, p - 6))).length = 3 := by decide

mutual

/-- P3 for the embedded arms, node case: the scope stack is balanced —
`serialize` returns the stack exactly as it received it (every push is
matched by a pop on every exit path). -/
theorem serializeNode_scope (input : Nat → Nat × Nat) :
    ∀ (n : Node) (s : List String), (serializeNode input n s).2 = s
  | Node.aliasN toN fromN, s => by cases toN <;> cases fromN <;> simp [serializeNode]
  | Node.arg name expression_l, s => by simp [serializeNode]
  | Node.argsN args, s => by
      simp [serializeNode, serializeNodeList_scope input args]
  | Node.beginN statements, s => by
      simp [serializeNode, serializeNodeList_scope input statements]
  | Node.casgn scope name value name_l, s => by
      simp [serializeNode, serializeNodeOpt_scope input scope,
        serializeNodeOpt_scope input value]
  | Node.classN name superclass body, s => by
      cases name <;>
        simp [serializeNode, serializeNodeOpt_scope input superclass,
          serializeNodeOpt_scope input body]
  | Node.constN scope name name_l expression_l, s => by
      simp [serializeNode, serializeNodeOpt_scope input scope]
  | Node.csend recv method_name args selector_l, s => by
      simp [serializeNode, serializeNode_scope input recv,
        serializeNodeList_scope input args]
  | Node.cvar name expression_l, s => by simp [serializeNode]
  | Node.cvasgn name value name_l, s => by
      simp [serializeNode, serializeNodeOpt_scope input value]
  | Node.defN name args body name_l, s => by
      simp [serializeNode, serializeNodeOpt_scope input args,
        serializeNodeOpt_scope input body]
  | Node.defsN name args body name_l, s => by
      simp [serializeNode, serializeNodeOpt_scope input args,
        serializeNodeOpt_scope input body]
  | Node.gvar name expression_l, s => by simp [serializeNode]
  | Node.gvasgn name value name_l, s => by
      simp [serializeNode, serializeNodeOpt_scope input value]
  | Node.ifN cond if_true if_false, s => by
      simp [serializeNode, serializeNode_scope input cond,
        serializeNodeOpt_scope input if_true, serializeNodeOpt_scope input if_false]
  | Node.ivar name expression_l, s => by simp [serializeNode]
  | Node.ivasgn name value name_l, s => by
      simp [serializeNode, serializeNodeOpt_scope input value]
  | Node.kwarg name name_l, s => by simp [serializeNode]
  | Node.lvar name expression_l, s => by simp [serializeNode]
  | Node.lvasgn name value name_l, s => by
      simp [serializeNode, serializeNodeOpt_scope input value]
  | Node.moduleN name body, s => by
      cases name <;> simp [serializeNode, serializeNodeOpt_scope input body]
  | Node.sendN recv method_name args selector_l, s => by
      simp [serializeNode, serializeNodeOpt_scope input recv,
        serializeNodeList_scope input args]
  | Node.superN args keyword_l, s => by
      simp [serializeNode, serializeNodeList_scope input args]
  | Node.sym name expression_l, s => by simp [serializeNode]
  | Node.zsuper expression_l, s => by simp [serializeNode]
  | Node.other, s => by simp [serializeNode]

/-- P3, `Vec<Node>` children case. -/
theorem serializeNodeList_scope (input : Nat → Nat × Nat) :
    ∀ (l : NodeList) (s : List String), (serializeNodeList input l s).2 = s
  | NodeList.nil, s => by simp [serializeNodeList]
  | NodeList.cons n ns, s => by
      simp [serializeNodeList, serializeNode_scope input n,
        serializeNodeList_scope input ns]

/-- P3, `Option<Box<Node>>` child case. -/
theorem serializeNodeOpt_scope (input : Nat → Nat × Nat) :
    ∀ (o : NodeOpt) (s : List String), (serializeNodeOpt input o s).2 = s
  | NodeOpt.none, s => by simp [serializeNodeOpt]
  | NodeOpt.some n, s => by simp [serializeNodeOpt, serializeNode_scope input n]

end

mutual

/-- Record invariant of the extractor, node case: every emitted record's
`fuzzy_ruby_scope` is the scope stack at its emission point, which extends
the entry stack; and every usage-category record's `node_type` is a key of
`USAGE_TYPE_RESTRICTIONS`. -/
theorem serializeNode_records (input : Nat → Nat × Nat) :
    ∀ (n : Node) (s : List String) (r : FuzzyNode),
      r ∈ (serializeNode input n s).1 →
      (∃ t, r.fuzzy_ruby_scope = s ++ t) ∧
        (r.category = "usage" → (USAGE_TYPE_RESTRICTIONS r.node_type).isSome = true)
  | Node.aliasN toN fromN, s, r => by
      intro h
      simp only [serializeNode, List.mem_append] at h
      rcases h with h | h
      · cases toN <;> simp only [List.mem_singleton, List.not_mem_nil] at h
        case sym nm el =>
          subst h
          exact ⟨⟨[], by simp⟩, by intro hc; simp at hc⟩
      · cases fromN <;> simp only [List.mem_singleton, List.not_mem_nil] at h
        case sym nm el =>
          subst h
          exact ⟨⟨[], by simp⟩, by intro _; simp [ USAGE_TYPE_RESTRICTIONS]⟩
  | Node.arg name expression_l, s, r => by
      intro h
      simp only [serializeNode, List.mem_singleton] at h
      subst h
      exact ⟨⟨[], by simp⟩, by intro hc; simp at hc⟩
  | Node.argsN args, s, r => by
      intro h
      simp only [serializeNode] at h
      exact serializeNodeList_records input args s r h
  | Node.beginN statements, s, r => by
      intro h
      simp only [serializeNode] at h
      exact serializeNodeList_records input statements s r h
  | Node.casgn scope name value name_l, s, r => by
      intro h
      simp only [serializeNode, List.mem_append, List.mem_singleton] at h
      rw [serializeNodeOpt_scope input scope] at h
      rcases h with (h | h) | h
      · subst h
        exact ⟨⟨[], by simp⟩, by intro hc; simp at hc⟩
      · exact serializeNodeOpt_records input scope s r h
      · exact serializeNodeOpt_records input value s r h
  | Node.classN name superclass body, s, r => by
      intro h
      cases name <;>
        simp only [serializeNode, List.mem_append, List.mem_singleton,
          List.not_mem_nil] at h
      case constN cscope cname cnl cel =>
        rw [serializeNodeOpt_scope input superclass] at h
        rcases h with (h | h) | h
        · subst h
          exact ⟨⟨[], by simp⟩, by intro hc; simp at hc⟩
        · obtain ⟨⟨t, ht⟩, hk⟩ := serializeNodeOpt_records input superclass (s ++ [cname]) r h
          exact ⟨⟨cname :: t, by simpa using ht⟩, hk⟩
        · obtain ⟨⟨t, ht⟩, hk⟩ := serializeNodeOpt_records input body (s ++ [cname]) r h
          exact ⟨⟨cname :: t, by simpa using ht⟩, hk⟩
  | Node.constN scope name name_l expression_l, s, r => by
      intro h
      simp only [serializeNode, List.mem_append, List.mem_singleton] at h
      rcases h with h | h
      · subst h
        exact ⟨⟨[], by simp⟩, by intro _; simp [ USAGE_TYPE_RESTRICTIONS]⟩
      · exact serializeNodeOpt_records input scope s r h
  | Node.csend recv method_name args selector_l, s, r => by
      intro h
      rcases selector_l with _ | loc <;>
        simp only [serializeNode, List.mem_append, List.mem_singleton,
          List.not_mem_nil, false_or] at h <;>
        rw [serializeNode_scope input recv] at h
      · rcases h with h | h
        · exact serializeNode_records input recv s r h
        · exact serializeNodeList_records input args s r h
      · rcases h with (h | h) | h
        · subst h
          exact ⟨⟨[], by simp⟩, by intro _; simp [ USAGE_TYPE_RESTRICTIONS]⟩
        · exact serializeNode_records input recv s r h
        · exact serializeNodeList_records input args s r h
  | Node.cvar name expression_l, s, r => by
      intro h
      simp only [serializeNode, List.mem_singleton] at h
      subst h
      exact ⟨⟨[], by simp⟩, by intro _; simp [ USAGE_TYPE_RESTRICTIONS]⟩
  | Node.cvasgn name value name_l, s, r => by
      intro h
      simp only [serializeNode, List.mem_append, List.mem_singleton] at h
      rcases h with h | h
      · subst h
        exact ⟨⟨[], by simp⟩, by intro hc; simp at hc⟩
      · exact serializeNodeOpt_records input value s r h
  | Node.defN name args body name_l, s, r => by
      intro h
      simp only [serializeNode, List.mem_append, List.mem_singleton] at h
      rw [serializeNodeOpt_scope input args] at h
      rcases h with (h | h) | h
      · subst h
        exact ⟨⟨[], by simp⟩, by intro hc; simp at hc⟩
      · obtain ⟨⟨t, ht⟩, hk⟩ := serializeNodeOpt_records input args (s ++ [name]) r h
        exact ⟨⟨name :: t, by simpa using ht⟩, hk⟩
      · obtain ⟨⟨t, ht⟩, hk⟩ := serializeNodeOpt_records input body (s ++ [name]) r h
        exact ⟨⟨name :: t, by simpa using ht⟩, hk⟩
  | Node.defsN name args body name_l, s, r => by
      intro h
      simp only [serializeNode, List.mem_append, List.mem_singleton] at h
      rw [serializeNodeOpt_scope input args] at h
      rcases h with (h | h) | h
      · subst h
        exact ⟨⟨[], by simp⟩, by intro hc; simp at hc⟩
      · obtain ⟨⟨t, ht⟩, hk⟩ :=
          serializeNodeOpt_records input args (s ++ ["self." ++ name]) r h
        exact ⟨⟨("self." ++ name) :: t, by simpa using ht⟩, hk⟩
      · obtain ⟨⟨t, ht⟩, hk⟩ :=
          serializeNodeOpt_records input body (s ++ ["self." ++ name]) r h
        exact ⟨⟨("self." ++ name) :: t, by simpa using ht⟩, hk⟩
  | Node.gvar name expression_l, s, r => by
      intro h
      simp only [serializeNode, List.mem_singleton] at h
      subst h
      exact ⟨⟨[], by simp⟩, by intro _; simp [ USAGE_TYPE_RESTRICTIONS]⟩
  | Node.gvasgn name value name_l, s, r => by
      intro h
      simp only [serializeNode, List.mem_append, List.mem_singleton] at h
      rcases h with h | h
      · subst h
        exact ⟨⟨[], by simp⟩, by intro hc; simp at hc⟩
      · exact serializeNodeOpt_records input value s r h
  | Node.ifN cond if_true if_false, s, r => by
      intro h
      simp only [serializeNode, List.mem_append] at h
      rw [serializeNode_scope input cond, serializeNodeOpt_scope input if_true] at h
      rcases h with (h | h) | h
      · exact serializeNode_records input cond s r h
      · exact serializeNodeOpt_records input if_true s r h
      · exact serializeNodeOpt_records input if_false s r h
  | Node.ivar name expression_l, s, r => by
      intro h
      simp only [serializeNode, List.mem_singleton] at h
      subst h
      exact ⟨⟨[], by simp⟩, by intro _; simp [ USAGE_TYPE_RESTRICTIONS]⟩
  | Node.ivasgn name value name_l, s, r => by
      intro h
      simp only [serializeNode, List.mem_append, List.mem_singleton] at h
      rcases h with h | h
      · subst h
        exact ⟨⟨[], by simp⟩, by intro hc; simp at hc⟩
      · exact serializeNodeOpt_records input value s r h
  | Node.kwarg name name_l, s, r => by
      intro h
      simp only [serializeNode, List.mem_singleton] at h
      subst h
      exact ⟨⟨[], by simp⟩, by intro hc; simp at hc⟩
  | Node.lvar name expression_l, s, r => by
      intro h
      simp only [serializeNode, List.mem_singleton] at h
      subst h
      exact ⟨⟨[], by simp⟩, by intro _; simp [ USAGE_TYPE_RESTRICTIONS]⟩
  | Node.lvasgn name value name_l, s, r => by
      intro h
      simp only [serializeNode, List.mem_append, List.mem_singleton] at h
      rcases h with h | h
      · subst h
        exact ⟨⟨[], by simp⟩, by intro hc; simp at hc⟩
      · exact serializeNodeOpt_records input value s r h
  | Node.moduleN name body, s, r => by
      intro h
      cases name <;>
        simp only [serializeNode, List.mem_append, List.mem_singleton,
          List.not_mem_nil] at h
      case constN cscope cname cnl cel =>
        rcases h with h | h
        · subst h
          exact ⟨⟨[], by simp⟩, by intro hc; simp at hc⟩
        · obtain ⟨⟨t, ht⟩, hk⟩ := serializeNodeOpt_records input body (s ++ [cname]) r h
          exact ⟨⟨cname :: t, by simpa using ht⟩, hk⟩
  | Node.sendN recv method_name args selector_l, s, r => by
      intro h
      rcases selector_l with _ | loc <;>
        simp only [serializeNode, List.mem_append, List.mem_singleton,
          List.not_mem_nil, or_false] at h <;>
        rw [serializeNodeOpt_scope input recv] at h
      · rcases h with h | h
        · exact serializeNodeOpt_records input recv s r h
        · exact serializeNodeList_records input args s r h
      · rcases h with (h | h) | h
        · exact serializeNodeOpt_records input recv s r h
        · subst h
          exact ⟨⟨[], by simp⟩, by intro _; simp [ USAGE_TYPE_RESTRICTIONS]⟩
        · exact serializeNodeList_records input args s r h
  | Node.superN args keyword_l, s, r => by
      intro h
      rcases hgl : s.getLast? with _ | last <;>
        simp only [serializeNode, hgl, List.mem_append, List.mem_singleton,
          List.not_mem_nil, false_or] at h
      · exact serializeNodeList_records input args s r h
      · rcases h with h | h
        · subst h
          exact ⟨⟨[], by simp⟩, by intro _; simp [ USAGE_TYPE_RESTRICTIONS]⟩
        · exact serializeNodeList_records input args s r h
  | Node.sym name expression_l, s, r => by
      intro h
      simp [serializeNode] at h
  | Node.zsuper expression_l, s, r => by
      intro h
      rcases hgl : s.getLast? with _ | last <;>
        simp only [serializeNode, hgl, List.mem_singleton, List.not_mem_nil] at h
      subst h
      exact ⟨⟨[], by simp⟩, by intro _; simp [ USAGE_TYPE_RESTRICTIONS]⟩
  | Node.other, s, r => by
      intro h
      simp [serializeNode] at h

/-- Record invariant, `Vec<Node>` children case. -/
theorem serializeNodeList_records (input : Nat → Nat × Nat) :
    ∀ (l : NodeList) (s : List String) (r : FuzzyNode),
      r ∈ (serializeNodeList input l s).1 →
      (∃ t, r.fuzzy_ruby_scope = s ++ t) ∧
        (r.category = "usage" → (USAGE_TYPE_RESTRICTIONS r.node_type).isSome = true)
  | NodeList.nil, s, r => by
      intro h
      simp [serializeNodeList] at h
  | NodeList.cons n ns, s, r => by
      intro h
      simp only [serializeNodeList, List.mem_append] at h
      rw [serializeNode_scope input n] at h
      rcases h with h | h
      · exact serializeNode_records input n s r h
      · exact serializeNodeList_records input ns s r h

/-- Record invariant, `Option<Box<Node>>` child case. -/
theorem serializeNodeOpt_records (input : Nat → Nat × Nat) :
    ∀ (o : NodeOpt) (s : List String) (r : FuzzyNode),
      r ∈ (serializeNodeOpt input o s).1 →
      (∃ t, r.fuzzy_ruby_scope = s ++ t) ∧
        (r.category = "usage" → (USAGE_TYPE_RESTRICTIONS r.node_type).isSome = true)
  | NodeOpt.none, s, r => by
      intro h
      simp [serializeNodeOpt] at h
  | NodeOpt.some n, s, r => by
      intro h
      simp only [serializeNodeOpt] at h
      exact serializeNode_records input n s r h

end

/-- A list is a prefix (in the `isPrefixOf` sense) of itself followed by
anything. -/
theorem isPrefixOfAppendSelf : ∀ (p t : List Char), p.isPrefixOf (p ++ t) = true
  | [], _ => by simp [List.isPrefixOf]
  | c :: ps, t => by simp [List.isPrefixOf, isPrefixOfAppendSelf ps t]

/-- When the pattern occurs nowhere in the scanned list, the replace pass
leaves it unchanged, whatever the fuel. -/
theorem replaceAux_of_hasOcc_false (pat : List Char) :
    ∀ (s : List Char) (fuel : Nat), hasOcc pat s = false → replaceAux pat fuel s = s
  | [], fuel, _ => by cases fuel <;> rfl
  | _ :: _, 0, _ => rfl
  | c :: rest, fuel + 1, h => by
      simp only [hasOcc, Bool.or_eq_false_iff] at h
      simp [replaceAux, h.1, replaceAux_of_hasOcc_false pat rest fuel h.2]

/-- When the non-empty pattern occurs exactly once, at the very front, the
replace pass strips exactly that leading occurrence. -/
theorem replaceAux_strip_leading :
    ∀ (pat rest : List Char) (fuel : Nat), pat ≠ [] → hasOcc pat rest = false →
      replaceAux pat (fuel + 1) (pat ++ rest) = rest
  | [], _, _, hne, _ => absurd rfl hne
  | c :: ps, rest, fuel, _, hno => by
      have hpre : (c :: ps).isPrefixOf (c :: (ps ++ rest)) = true :=
        isPrefixOfAppendSelf (c :: ps) rest
      have hdrop : (c :: (ps ++ rest)).drop (c :: ps).length = rest :=
        List.drop_left (c :: ps) rest
      show replaceAux (c :: ps) (fuel + 1) (c :: (ps ++ rest)) = rest
      simp only [replaceAux, List.append_eq, hpre, List.isEmpty_cons, Bool.not_false,
        Bool.true_and, if_true]
      rw [hdrop]
      exact replaceAux_of_hasOcc_false (c :: ps) rest fuel hno

/-- C1 counterexample: the claim reads `file_id` as the digest of the
document path with the workspace root stripped as a (leading) prefix, "only
the leading occurrence" being removed.  The code instead computes
`uri.path().replace(&workspace_path, "")`, and Rust `str::replace` removes
every occurrence.  At workspace root `/a` and document `/a/b/a/c.rb` the
code hashes `/b/c.rb` (both occurrences of `/a` removed), not the
prefix-stripped `/b/a/c.rb`; instantiating the digest at the identity
function exhibits the differing `file_id`. -/
theorem c1_counterexample :
    reindexFileId (fun s => s) "/a" "/a/b/a/c.rb" = "/b/c.rb" ∧
    stripLeading "/a/b/a/c.rb" "/a" = "/b/a/c.rb" ∧
    ¬ reindexFileId (fun s => s) "/a" "/a/b/a/c.rb" = stripLeading "/a/b/a/c.rb" "/a" := by
  exact ⟨by decide, by decide, by decide⟩

/-- C1 (amended): the `file_id` keying the index is the digest of the
document path with every left-to-right non-overlapping occurrence of the
workspace root's path removed (Rust `str::replace` with an empty
replacement), not only the leading one; indexing (`reindex_modified_file`)
and both queries (`find_definitions`, `find_highlights`) compute the
`file_id` of a document identically, so they agree for every document and
workspace root; and when the workspace path occurs in the document path
only as its leading prefix, the code's computation coincides with the
claim's prefix-stripping reading. -/
theorem c1_file_id_replace_all :
    (∀ (blake3_hash : String → String) (workspace_path docPath : String),
       reindexFileId blake3_hash workspace_path docPath
           = findDefinitionsFileId blake3_hash workspace_path docPath ∧
       findDefinitionsFileId blake3_hash workspace_path docPath
           = findHighlightsFileId blake3_hash workspace_path docPath) ∧
    (∀ (ws rest : List Char), ws ≠ [] → hasOcc ws rest = false →
       rustReplace (String.mk (ws ++ rest)) (String.mk ws) = String.mk rest ∧
       stripLeading (String.mk (ws ++ rest)) (String.mk ws) = String.mk rest) := by
  constructor
  · intro blake3_hash workspace_path docPath
    exact ⟨rfl, rfl⟩
  · intro ws rest hne hno
    constructor
    · show String.mk (replaceAux ws (ws ++ rest).length (ws ++ rest)) = String.mk rest
      cases ws with
      | nil => exact absurd rfl hne
      | cons c ps =>
        have hlen : (c :: ps ++ rest).length = (ps ++ rest).length + 1 := by simp
        rw [hlen, replaceAux_strip_leading (c :: ps) rest (ps ++ rest).length hne hno]
    · show (if ws.isPrefixOf (ws ++ rest) = true then
          String.mk ((ws ++ rest).drop ws.length) else String.mk (ws ++ rest))
          = String.mk rest
      rw [if_pos (isPrefixOfAppendSelf ws rest), List.drop_left ws rest]

/-- Witness for `c1_file_id_replace_all` at workspace `/w` and
workspace-relative remainder `/s.rb`. -/
theorem c1_file_id_replace_all_witness :
    rustReplace (String.mk ("/w".data ++ "/s.rb".data)) (String.mk "/w".data)
        = String.mk "/s.rb".data ∧
    stripLeading (String.mk ("/w".data ++ "/s.rb".data)) (String.mk "/w".data)
        = String.mk "/s.rb".data :=
  c1_file_id_replace_all.2 "/w".data "/s.rb".data (by decide) (by decide)

/-- The head of the top-k result list is a member of the list it was taken
from. -/
theorem headSomeMem {α : Type} {l : List α} {a : α} (h : l.head? = some a) : a ∈ l := by
  cases l with
  | nil => simp at h
  | cons x xs =>
    simp only [List.head?_cons, Option.some.injEq] at h
    subst h
    exact List.mem_cons_self x xs

/-- tantivy MUST semantics, extraction direction: a record matching a
boolean query satisfies each of the query's MUST clauses. -/
theorem boolQueryMatch_must (r : Record) (q : List (Occur × Clause)) (c : Clause)
    (hc : (Occur.must, c) ∈ q) (h : boolQueryMatch r q = true) :
    clauseMatch r c = true := by
  unfold boolQueryMatch at h
  have hany : q.any isMust = true :=
    List.any_eq_true.mpr ⟨(Occur.must, c), hc, rfl⟩
  rw [if_pos hany] at h
  have hall := List.all_eq_true.mp h (Occur.must, c) hc
  simpa [isMust] using hall

/-- A record returned by `searchQ` is in the index and matches the query. -/
theorem searchQ_sound {index : List Record} {q : List (Occur × Clause)} {top_k : Nat}
    {r : Record} (h : r ∈ searchQ index q top_k) :
    r ∈ index ∧ boolQueryMatch r q = true := by
  have h1 : r ∈ index.filter (fun x => boolQueryMatch x q) := List.take_subset _ _ h
  exact ⟨List.mem_of_mem_filter h1, by simpa using List.of_mem_filter h1⟩

/-- C2 counterexample: a usage record whose `node_type` (here `"Foo"`) has
no entry in `USAGE_TYPE_RESTRICTIONS` makes `find_definitions` hit
`USAGE_TYPE_RESTRICTIONS.get(usage_type).unwrap()` on `None` — the source
panics (modelled as `Except.error`) instead of returning an empty list. -/
theorem c2_counterexample :
    find_definitions (fun _ => "F") ""
        [⟨"F", ["f.rb"], "usage", [], "x", "Foo", 0, 0, 1, [0, 1]⟩] "/f.rb" 0 0
      = Except.error "called Option.unwrap on a None value" := rfl

/-- C2 (amended): when the located usage record's `node_type` has no entry
in the usage-to-assignment table, `find_definitions` panics on the `unwrap`
rather than returning an empty list; however, every usage-category record
the extractor emits carries one of the ten node types that are keys of the
table, so on any index populated only by the extractor the lookup always
succeeds and `find_definitions` returns `Ok` (&#x7b;the analogous absent-key
case in `find_highlights` does degrade to `unwrap_or` empty&#x7d;). -/
theorem c2_unwrap_behaviour :
    (∀ (input : Nat → Nat × Nat) (n : Node) (s : List String) (r : FuzzyNode),
       r ∈ (serializeNode input n s).1 → r.category = "usage" →
       (USAGE_TYPE_RESTRICTIONS r.node_type).isSome = true) ∧
    (∀ (blake3_hash : String → String) (workspace_path : String) (index : List Record)
       (docPath : String) (line col : Nat),
       (∀ r ∈ index, r.category = "usage" →
          (USAGE_TYPE_RESTRICTIONS r.node_type).isSome = true) →
       ∃ locs, find_definitions blake3_hash workspace_path index docPath line col
          = Except.ok locs) := by
  constructor
  · intro input n s r h hc
    exact (serializeNode_records input n s r h).2 hc
  · intro blake3_hash workspace_path index docPath line col hidx
    rcases hloc : locateUsage blake3_hash workspace_path index docPath line col with _ | u
    · exact ⟨[], by simp only [find_definitions, hloc]⟩
    · have hmem := headSomeMem hloc
      obtain ⟨hin, hq⟩ := searchQ_sound hmem
      have hcat : u.category = "usage" := by
        have hclause := boolQueryMatch_must u _
          (Clause.term ⟨FieldId.category, TermValue.str "usage"⟩)
          (by simp [definitionLocateQuery]) hq
        simpa [clauseMatch, recordHasTerm] using hclause
      obtain ⟨allowed, hall⟩ := Option.isSome_iff_exists.mp (hidx u hin hcat)
      exact ⟨(searchQ index (definitionCandidateQuery u allowed) 50).map
          (mkLocation workspace_path),
        by simp only [find_definitions, hloc, hall]⟩

/-- Witness for `c2_unwrap_behaviour` on a one-record index whose single
usage record has the table-keyed node type `Lvar`. -/
theorem c2_unwrap_behaviour_witness :
    ∃ locs, find_definitions (fun _ => "F") ""
        [⟨"F", ["f.rb"], "usage", ["m"], "x", "Lvar", 0, 0, 1, [0, 1]⟩] "/f.rb" 0 0
      = Except.ok locs :=
  c2_unwrap_behaviour.2 (fun _ => "F") ""
    [⟨"F", ["f.rb"], "usage", ["m"], "x", "Lvar", 0, 0, 1, [0, 1]⟩] "/f.rb" 0 0
    (by decide)

/-- C3 (P2): after `reindex_modified_file` commits for a file, the records
carrying that file's `file_path_id` are exactly the freshly extracted
documents — no record predating the operation remains; and on a parse
failure (`ast = none`) the purge still runs, leaving zero records for the
file. -/
theorem c3_purge_then_insert (blake3_hash : String → String) (workspace_path : String)
    (index : List Record) (docPath : String) (ast : Option Node)
    (input : Nat → Nat × Nat) :
    (reindex_modified_file blake3_hash workspace_path index docPath ast input).filter
        (fun r => r.file_path_id = blake3_hash (rustReplace docPath workspace_path))
      = (parse input ast).map
          (mkDocument (blake3_hash (rustReplace docPath workspace_path))
            (rustReplace docPath workspace_path)) ∧
    (ast = none →
      (reindex_modified_file blake3_hash workspace_path index docPath ast input).filter
          (fun r => r.file_path_id = blake3_hash (rustReplace docPath workspace_path))
        = []) := by
  have hmain :
      (reindex_modified_file blake3_hash workspace_path index docPath ast input).filter
          (fun r => r.file_path_id = blake3_hash (rustReplace docPath workspace_path))
        = (parse input ast).map
            (mkDocument (blake3_hash (rustReplace docPath workspace_path))
              (rustReplace docPath workspace_path)) := by
    unfold reindex_modified_file
    rw [List.filter_append]
    have h1 : (index.filter (fun r =>
          r.file_path_id ≠ blake3_hash (rustReplace docPath workspace_path))).filter
        (fun r => r.file_path_id = blake3_hash (rustReplace docPath workspace_path)) = [] := by
      rw [List.filter_filter]
      apply List.filter_eq_nil_iff.mpr
      intro a _
      simp
    have h2 : ((parse input ast).map
          (mkDocument (blake3_hash (rustReplace docPath workspace_path))
            (rustReplace docPath workspace_path))).filter
        (fun r => r.file_path_id = blake3_hash (rustReplace docPath workspace_path))
      = (parse input ast).map
          (mkDocument (blake3_hash (rustReplace docPath workspace_path))
            (rustReplace docPath workspace_path)) := by
      apply List.filter_eq_self.mpr
      intro a ha
      obtain ⟨d, _, rfl⟩ := List.mem_map.mp ha
      simp [mkDocument]
    rw [h1, h2, List.nil_append]
  refine ⟨hmain, fun h => ?_⟩
  rw [hmain]
  subst h
  simp [parse]

/-- Witness for `c3_purge_then_insert`: a stale record for the file and a
foreign record; a parse failure purges the former and keeps the latter. -/
theorem c3_purge_then_insert_witness :
    (reindex_modified_file (fun s => s) "/w"
        [⟨"/f.rb", ["f.rb"], "usage", [], "x", "Lvar", 0, 0, 1, [0, 1]⟩,
         ⟨"/g.rb", ["g.rb"], "usage", [], "y", "Lvar", 0, 0, 1, [0, 1]⟩]
        "/w/f.rb" none (fun p => (p, p))).filter
        (fun r => r.file_path_id = (fun s : String => s) (rustReplace "/w/f.rb" "/w"))
      = [] :=
  (c3_purge_then_insert (fun s => s) "/w"
    [⟨"/f.rb", ["f.rb"], "usage", [], "x", "Lvar", 0, 0, 1, [0, 1]⟩,
     ⟨"/g.rb", ["g.rb"], "usage", [], "y", "Lvar", 0, 0, 1, [0, 1]⟩]
    "/w/f.rb" none (fun p => (p, p))).2 rfl

/-- C4 (P1): for a record whose extracted span satisfies
`start_column ≤ end_column` (the parser's span contract for the single-line
name spans the extractor reads), the inserted `columns` multi-field is
exactly the closed integer interval from `start_column` to `end_column`:
`end_column - start_column + 1` entries containing precisely the columns
between the two endpoints inclusive. -/
theorem c4_columns_closed_interval (file_path_id relative_path : String) (d : FuzzyNode)
    (h : d.start_column ≤ d.end_column) :
    d.start_column ≤ d.end_column ∧
    (mkDocument file_path_id relative_path d).columns
        = List.range' d.start_column (d.end_column - d.start_column + 1) ∧
    (mkDocument file_path_id relative_path d).columns.length
        = d.end_column - d.start_column + 1 ∧
    ∀ c, c ∈ (mkDocument file_path_id relative_path d).columns ↔
      d.start_column ≤ c ∧ c ≤ d.end_column := by
  have harith : d.end_column + 1 - d.start_column = d.end_column - d.start_column + 1 := by
    omega
  refine ⟨h, by simp [mkDocument, harith], by simp [mkDocument, harith], fun c => ?_⟩
  simp only [mkDocument]
  rw [List.mem_range'_1]
  omega

/-- Witness for `c4_columns_closed_interval` on a span from column 2 to
column 4. -/
theorem c4_columns_closed_interval_witness :
    (mkDocument "F" "/f.rb" ⟨"usage", [], "x", "Lvar", 0, 2, 4⟩).columns
      = List.range' 2 (4 - 2 + 1) :=
  (c4_columns_closed_interval "F" "/f.rb" ⟨"usage", [], "x", "Lvar", 0, 2, 4⟩
    (by decide)).2.1

/-- C5 (P5): when the record located by go-to-definition is an `Lvar`
usage, every returned location is built from an assignment record of the
index whose `fuzzy_ruby_scope` multi-field contains every scope name of the
located usage's scope stack (each scope name became a MUST clause). -/
theorem c5_lvar_scope_superset (blake3_hash : String → String) (workspace_path : String)
    (index : List Record) (docPath : String) (line col : Nat) (u : Record)
    (locs : List Location)
    (hloc : locateUsage blake3_hash workspace_path index docPath line col = some u)
    (hT : u.node_type = "Lvar")
    (hres : find_definitions blake3_hash workspace_path index docPath line col
      = Except.ok locs) :
    ∀ l ∈ locs, ∃ r, r ∈ index ∧ r.category = "assignment" ∧
      (∀ sc ∈ u.fuzzy_ruby_scope, sc ∈ r.fuzzy_ruby_scope) ∧
      l = mkLocation workspace_path r := by
  intro l hl
  simp only [find_definitions, hloc, hT, USAGE_TYPE_RESTRICTIONS,
    Except.ok.injEq] at hres
  subst hres
  obtain ⟨r, hr, rfl⟩ := List.mem_map.mp hl
  obtain ⟨hin, hq⟩ := searchQ_sound hr
  refine ⟨r, hin, ?_, ?_, rfl⟩
  · have hclause := boolQueryMatch_must r _
      (Clause.term ⟨FieldId.category, TermValue.str "assignment"⟩)
      (by simp [definitionCandidateQuery]) hq
    simpa [clauseMatch, recordHasTerm] using hclause
  · intro sc hsc
    have hc : (Occur.must, Clause.term ⟨FieldId.fuzzy_ruby_scope, TermValue.str sc⟩)
        ∈ definitionCandidateQuery u
          ["Arg", "Kwarg", "Kwoptarg", "Kwrestarg", "Lvasgn", "MatchVar",
           "Optarg", "Restarg", "Shadowarg"] := by
      unfold definitionCandidateQuery
      apply List.mem_append_right
      exact List.mem_map.mpr ⟨sc, hsc, by simp [hT]⟩
    have hclause := boolQueryMatch_must r _ _ hc hq
    simpa [clauseMatch, recordHasTerm, List.contains] using hclause

/-- Witness for `c5_lvar_scope_superset`: index with an `Lvar` usage of `x`
in scope `m` and an `Lvasgn` assignment of `x` in scope `m`; the query at
the usage location returns the assignment. -/
theorem c5_lvar_scope_superset_witness :
    ∃ r, r ∈ [(⟨"F", ["f.rb"], "usage", ["m"], "x", "Lvar", 1, 5, 6, [5, 6]⟩ : Record),
              ⟨"F", ["f.rb"], "assignment", ["m"], "x", "Lvasgn", 0, 0, 1, [0, 1]⟩] ∧
      r.category = "assignment" ∧
      (∀ sc ∈ (["m"] : List String), sc ∈ r.fuzzy_ruby_scope) ∧
      mkLocation "" ⟨"F", ["f.rb"], "assignment", ["m"], "x", "Lvasgn", 0, 0, 1, [0, 1]⟩
        = mkLocation "" r :=
  c5_lvar_scope_superset (fun _ => "F") ""
    [⟨"F", ["f.rb"], "usage", ["m"], "x", "Lvar", 1, 5, 6, [5, 6]⟩,
     ⟨"F", ["f.rb"], "assignment", ["m"], "x", "Lvasgn", 0, 0, 1, [0, 1]⟩]
    "/f.rb" 1 5
    ⟨"F", ["f.rb"], "usage", ["m"], "x", "Lvar", 1, 5, 6, [5, 6]⟩
    [mkLocation "" ⟨"F", ["f.rb"], "assignment", ["m"], "x", "Lvasgn", 0, 0, 1, [0, 1]⟩]
    rfl rfl rfl
    (mkLocation "" ⟨"F", ["f.rb"], "assignment", ["m"], "x", "Lvasgn", 0, 0, 1, [0, 1]⟩)
    (by decide)

/-- C6 (P4): for a class or module declaration whose name is a constant
node, the record emitted for the construct itself carries the scope stack
as it stood before the construct's name was pushed; every record emitted
from inside (superclass or body) carries a stack extending the pushed stack
and therefore containing the construct's name; and the push is matched by a
pop — the stack after the construct equals the stack before it. -/
theorem c6_scope_push_pop (input : Nat → Nat × Nat) (s : List String) (cname : String)
    (cscope : NodeOpt) (cnl cel : Loc) (superclass body : NodeOpt) :
    (serializeNode input
        (Node.classN (Node.constN cscope cname cnl cel) superclass body) s).1.head?
        = some ⟨"assignment", s, cname, "Class", (input cel.beginPos).1,
            (input cel.beginPos).2, (input cel.endPos).2⟩ ∧
    (∀ r ∈ (serializeNode input
        (Node.classN (Node.constN cscope cname cnl cel) superclass body) s).1.tail,
      (∃ t, r.fuzzy_ruby_scope = (s ++ [cname]) ++ t) ∧ cname ∈ r.fuzzy_ruby_scope) ∧
    (serializeNode input
        (Node.classN (Node.constN cscope cname cnl cel) superclass body) s).2 = s ∧
    (serializeNode input (Node.moduleN (Node.constN cscope cname cnl cel) body) s).1.head?
        = some ⟨"assignment", s, cname, "Module", (input cel.beginPos).1,
            (input cel.beginPos).2, (input cel.endPos).2⟩ ∧
    (∀ r ∈ (serializeNode input
        (Node.moduleN (Node.constN cscope cname cnl cel) body) s).1.tail,
      (∃ t, r.fuzzy_ruby_scope = (s ++ [cname]) ++ t) ∧ cname ∈ r.fuzzy_ruby_scope) ∧
    (serializeNode input (Node.moduleN (Node.constN cscope cname cnl cel) body) s).2 = s := by
  refine ⟨by simp [serializeNode], ?_, ?_, by simp [serializeNode], ?_, ?_⟩
  · intro r hr
    have h1 : (serializeNode input
        (Node.classN (Node.constN cscope cname cnl cel) superclass body) s).1.tail
        = (serializeNodeOpt input superclass (s ++ [cname])).1
            ++ (serializeNodeOpt input body
                 (serializeNodeOpt input superclass (s ++ [cname])).2).1 := by
      simp [serializeNode]
    rw [h1, serializeNodeOpt_scope input superclass] at hr
    rcases List.mem_append.mp hr with h | h
    · obtain ⟨⟨t, ht⟩, _⟩ := serializeNodeOpt_records input superclass (s ++ [cname]) r h
      exact ⟨⟨t, ht⟩, by simp [ht]⟩
    · obtain ⟨⟨t, ht⟩, _⟩ := serializeNodeOpt_records input body (s ++ [cname]) r h
      exact ⟨⟨t, ht⟩, by simp [ht]⟩
  · simp [serializeNode, serializeNodeOpt_scope]
  · intro r hr
    have h1 : (serializeNode input
        (Node.moduleN (Node.constN cscope cname cnl cel) body) s).1.tail
        = (serializeNodeOpt input body (s ++ [cname])).1 := by
      simp [serializeNode]
    rw [h1] at hr
    obtain ⟨⟨t, ht⟩, _⟩ := serializeNodeOpt_records input body (s ++ [cname]) r hr
    exact ⟨⟨t, ht⟩, by simp [ht]⟩
  · simp [serializeNode, serializeNodeOpt_scope]

/-- Witness for `c6_scope_push_pop`: `class C` nested in scope `A` with a
`def m` body; the body's record carries scope `["A", "C"]`. -/
theorem c6_scope_push_pop_witness :
    (∃ t, (["A", "C"] : List String) = (["A"] ++ ["C"]) ++ t) ∧
      "C" ∈ (["A", "C"] : List String) :=
  (c6_scope_push_pop (fun p => (p, p)) ["A"] "C" NodeOpt.none ⟨0, 0⟩ ⟨0, 0⟩ NodeOpt.none
    (NodeOpt.some (Node.defN "m" NodeOpt.none NodeOpt.none ⟨0, 0⟩))).2.1
    ⟨"assignment", ["A", "C"], "m", "Def", 0, 0, 0⟩ (by decide)

/-- C7: a `Super` or `ZSuper` node emits a usage record named after the
innermost (last-pushed) scope name; with an empty scope stack neither node
emits a record (for `Super` the arguments are still visited). -/
theorem c7_super_innermost (input : Nat → Nat × Nat) (args : NodeList)
    (keyword_l expression_l : Loc) (s : List String) :
    (∀ x, s.getLast? = some x →
      (serializeNode input (Node.superN args keyword_l) s).1
          = ⟨"usage", s, x, "Super", (input keyword_l.beginPos).1,
             (input keyword_l.beginPos).2, (input keyword_l.endPos).2⟩
            :: (serializeNodeList input args s).1 ∧
      (serializeNode input (Node.zsuper expression_l) s).1
          = [⟨"usage", s, x, "ZSuper", (input expression_l.beginPos).1,
              (input expression_l.beginPos).2, (input expression_l.endPos).2⟩]) ∧
    (s.getLast? = none →
      (serializeNode input (Node.superN args keyword_l) s).1
          = (serializeNodeList input args s).1 ∧
      (serializeNode input (Node.zsuper expression_l) s).1 = []) := by
  constructor
  · intro x hx
    constructor <;> simp [serializeNode, hx]
  · intro hx
    constructor <;> simp [serializeNode, hx]

/-- Witness for `c7_super_innermost`: `super` inside `class A; def m` names
the enclosing method `m`. -/
theorem c7_super_innermost_witness :
    (serializeNode (fun p => (p, p)) (Node.zsuper ⟨3, 8⟩) ["A", "m"]).1
      = [⟨"usage", ["A", "m"], "m", "ZSuper", 3, 3, 8⟩] :=
  ((c7_super_innermost (fun p => (p, p)) NodeList.nil ⟨3, 8⟩ ⟨3, 8⟩ ["A", "m"]).1
    "m" (by decide)).2

/-- Whether a node is a `Const` node (the shape the `Class`/`Module` arms
of `serialize` destructure their name child against). -/
def isConstNode : Node → Bool
  | Node.constN _ _ _ _ => true
  | _ => false

/-- C10: a `Class` or `Module` node whose name child is not a constant node
makes the extractor emit nothing for the construct, visit none of its
children, and leave the scope stack untouched — the whole arm is guarded by
`if let Node::Const(..) = *name`. -/
theorem c10_non_const_name_skipped (input : Nat → Nat × Nat) (name : Node)
    (superclass body : NodeOpt) (s : List String)
    (h : isConstNode name = false) :
    serializeNode input (Node.classN name superclass body) s = ([], s) ∧
    serializeNode input (Node.moduleN name body) s = ([], s) := by
  cases name <;> simp_all [serializeNode, isConstNode]

/-- Witness for `c10_non_const_name_skipped`: even with an `Lvar` inside
the body, a non-`Const` name yields no records at all. -/
theorem c10_non_const_name_skipped_witness :
    serializeNode (fun p => (p, p)) (Node.classN Node.other NodeOpt.none
        (NodeOpt.some (Node.lvar "x" ⟨0, 1⟩))) ["S"] = ([], ["S"]) ∧
    serializeNode (fun p => (p, p)) (Node.moduleN Node.other
        (NodeOpt.some (Node.lvar "x" ⟨0, 1⟩))) ["S"] = ([], ["S"]) :=
  c10_non_const_name_skipped (fun p => (p, p)) Node.other NodeOpt.none
    (NodeOpt.some (Node.lvar "x" ⟨0, 1⟩)) ["S"] (by decide)

/-- C8: every highlight returned by `find_highlights` is built from an
index record whose `file_path_id` equals the digest computed for the
cursor's file (the MUST same-file clause), tagged WRITE exactly when that
record's category is `"assignment"` and READ exactly when it is `"usage"`
(given that every index record carries one of the two categories, as all
extractor-emitted records do), and at most 100 highlights are returned
(`top_k = 100`). -/
theorem c8_highlights_same_file (blake3_hash : String → String) (workspace_path : String)
    (index : List Record) (docPath : String) (line col : Nat)
    (hcat : ∀ r ∈ index, r.category = "assignment" ∨ r.category = "usage") :
    (find_highlights blake3_hash workspace_path index docPath line col).length ≤ 100 ∧
    ∀ hl ∈ find_highlights blake3_hash workspace_path index docPath line col,
      ∃ r, r ∈ index ∧
        r.file_path_id = findHighlightsFileId blake3_hash workspace_path docPath ∧
        hl = mkDocumentHighlight r ∧
        (hl.kind = some DocumentHighlightKind.write ↔ r.category = "assignment") ∧
        (hl.kind = some DocumentHighlightKind.read ↔ r.category = "usage") := by
  rcases hloc : locateToken blake3_hash workspace_path index docPath line col with _ | u
  · constructor
    · simp [find_highlights, hloc]
    · intro hl hhl
      simp [find_highlights, hloc] at hhl
  · constructor
    · simp only [find_highlights, hloc]
      rw [List.length_map]
      unfold searchQ
      rw [List.length_take]
      exact min_le_left _ _
    · intro hl hhl
      simp only [find_highlights, hloc] at hhl
      obtain ⟨r, hr, rfl⟩ := List.mem_map.mp hhl
      obtain ⟨hin, hq⟩ := searchQ_sound hr
      have hfid : r.file_path_id
          = findHighlightsFileId blake3_hash workspace_path docPath := by
        have hclause := boolQueryMatch_must r _
          (Clause.term ⟨FieldId.file_path_id,
            TermValue.str (findHighlightsFileId blake3_hash workspace_path docPath)⟩)
          (by simp [highlightCandidateQuery]) hq
        simpa [clauseMatch, recordHasTerm] using hclause
      refine ⟨r, hin, hfid, rfl, ?_, ?_⟩
      · rcases eq_or_ne r.category "assignment" with h | h
        · simp [mkDocumentHighlight, h]
        · simp [mkDocumentHighlight, h]
      · rcases hcat r hin with h | h
        · have hne : r.category ≠ "usage" := by simp [h]
          simp [mkDocumentHighlight, h, hne]
        · have hne : r.category ≠ "assignment" := by simp [h]
          simp [mkDocumentHighlight, h, hne]

/-- Witness for `c8_highlights_same_file` on a one-record index. -/
theorem c8_highlights_same_file_witness :
    (find_highlights (fun _ => "F") ""
        [⟨"F", ["f.rb"], "usage", ["m"], "x", "Lvar", 1, 5, 6, [5, 6]⟩]
        "/f.rb" 1 5).length ≤ 100 ∧
    ∀ hl ∈ find_highlights (fun _ => "F") ""
        [⟨"F", ["f.rb"], "usage", ["m"], "x", "Lvar", 1, 5, 6, [5, 6]⟩] "/f.rb" 1 5,
      ∃ r, r ∈ [(⟨"F", ["f.rb"], "usage", ["m"], "x", "Lvar", 1, 5, 6, [5, 6]⟩ : Record)] ∧
        r.file_path_id = findHighlightsFileId (fun _ => "F") "" "/f.rb" ∧
        hl = mkDocumentHighlight r ∧
        (hl.kind = some DocumentHighlightKind.write ↔ r.category = "assignment") ∧
        (hl.kind = some DocumentHighlightKind.read ↔ r.category = "usage") :=
  c8_highlights_same_file (fun _ => "F") ""
    [⟨"F", ["f.rb"], "usage", ["m"], "x", "Lvar", 1, 5, 6, [5, 6]⟩] "/f.rb" 1 5
    (by decide)

/-- C9: every range either resolver returns is single-line — the end
position's line equals the start position's line, both being rebuilt from
the record's single stored `line` field. -/
theorem c9_single_line_ranges (blake3_hash : String → String) (workspace_path : String)
    (index : List Record) (docPath : String) (line col : Nat) :
    (∀ locs, find_definitions blake3_hash workspace_path index docPath line col
        = Except.ok locs → ∀ l ∈ locs, l.range.endP.line = l.range.start.line) ∧
    (∀ hl ∈ find_highlights blake3_hash workspace_path index docPath line col,
      hl.range.endP.line = hl.range.start.line) := by
  constructor
  · intro locs hres l hl
    rcases hloc : locateUsage blake3_hash workspace_path index docPath line col with _ | u
    · simp only [find_definitions, hloc, Except.ok.injEq] at hres
      subst hres
      simp at hl
    · rcases htab : USAGE_TYPE_RESTRICTIONS u.node_type with _ | allowed
      · simp [find_definitions, hloc, htab] at hres
      · simp only [find_definitions, hloc, htab, Except.ok.injEq] at hres
        subst hres
        obtain ⟨r, _, rfl⟩ := List.mem_map.mp hl
        rfl
  · intro hl hhl
    rcases hloc : locateToken blake3_hash workspace_path index docPath line col with _ | u
    · simp [find_highlights, hloc] at hhl
    · simp only [find_highlights, hloc] at hhl
      obtain ⟨r, _, rfl⟩ := List.mem_map.mp hhl
      rfl

/-- Witness for `c9_single_line_ranges` on the go-to-definition result of
the two-record index of the C5 witness. -/
theorem c9_single_line_ranges_witness :
    (mkLocation "" ⟨"F", ["f.rb"], "assignment", ["m"], "x", "Lvasgn", 0, 0, 1,
        [0, 1]⟩).range.endP.line
      = (mkLocation "" ⟨"F", ["f.rb"], "assignment", ["m"], "x", "Lvasgn", 0, 0, 1,
        [0, 1]⟩).range.start.line :=
  (c9_single_line_ranges (fun _ => "F") ""
    [⟨"F", ["f.rb"], "usage", ["m"], "x", "Lvar", 1, 5, 6, [5, 6]⟩,
     ⟨"F", ["f.rb"], "assignment", ["m"], "x", "Lvasgn", 0, 0, 1, [0, 1]⟩]
    "/f.rb" 1 5).1
    [mkLocation "" ⟨"F", ["f.rb"], "assignment", ["m"], "x", "Lvasgn", 0, 0, 1, [0, 1]⟩]
    rfl
    (mkLocation "" ⟨"F", ["f.rb"], "assignment", ["m"], "x", "Lvasgn", 0, 0, 1, [0, 1]⟩)
    (by decide)
